import Mathlib

/-!
Shallow embedding of `src/elgamal_client/src/elgamal_client.cpp`
(an ElGamal decryption client: the modular-arithmetic helpers, the
`on_params` subscription handler and the service-response callback
of the `ElGamalClient` node), together with proofs of the spec's
claims about it.

Machine integers: the C++ code works on `uint64_t` (with a
`__uint128_t` widened intermediate in `mod_mul`).  Values are
embedded as `Nat`, and the two places where the machine width is
visible are made explicit: the `static_cast<uint64_t>` at the end of
`mod_mul` (a `% 2^64`), and the `uint64_t` subtraction `p - 1 - n`
in the response callback (wrap-around subtraction `sub64`).
-/

/-- The constant `2^64`, the size of the `uint64_t` value space. -/
def U64 : Nat := 2 ^ 64

/-- The constant `2^128`, the size of the `__uint128_t` value space. -/
def U128 : Nat := 2 ^ 128

/-- Wrap-around `uint64_t` subtraction: `(x - y) mod 2^64` for
`uint64_t` values `x, y`. -/
def sub64 (x y : Nat) : Nat := (x + (U64 - y % U64)) % U64

/-- Embeds `ElGamalClient::mod_mul` (elgamal_client.cpp lines 33-36):
`static_cast<uint64_t>((static_cast<__uint128_t>(a) * b) % mod)`.
The `__uint128_t` product of two `uint64_t` values is exact, so the
only machine-width effect is the final cast back to `uint64_t`. -/
def mod_mul (a b m : Nat) : Nat := ((a * b) % m) % U64

/-- Embeds the loop of `ElGamalClient::mod_pow` (elgamal_client.cpp
lines 43-50): while `exp > 0`, multiply `result` by `base` when the
low bit of `exp` is set (`exp & 1U`, i.e. `exp % 2 = 1`), square
`base`, and shift `exp` right by one (`exp >>= 1U`, i.e. `exp / 2`). -/
def mod_pow_loop (base exp result m : Nat) : Nat :=
  if exp = 0 then result
  else
    mod_pow_loop (mod_mul base base m) (exp / 2)
      (if exp % 2 = 1 then mod_mul result base m else result) m
termination_by exp
decreasing_by exact Nat.div_lt_self (Nat.pos_of_ne_zero (by assumption)) (by omega)

/-- Embeds `ElGamalClient::mod_pow` (elgamal_client.cpp lines 38-52):
`result = 1 % mod; base %= mod;` followed by the square-and-multiply
loop above.  A plain total function of its arguments: deterministic,
and defined on the whole `uint64_t` domain. -/
def mod_pow (base exp m : Nat) : Nat := mod_pow_loop (base % m) exp (1 % m) m

/-- Reinterpretation `static_cast<int64_t>(x)` of a `uint64_t` value
as a signed 64-bit integer (two's complement). -/
def toInt64 (x : Nat) : Int :=
  if x < 2 ^ 63 then (x : Int) else (x : Int) - (U64 : Int)

/-- The mutable round state of `ElGamalClient`: the fields
`waiting_service_`, `finished_`, `round_` (elgamal_client.cpp lines
135-137), in declaration order.  `round_` is a C++ `int`, embedded
as `Int`. -/
structure ClientState where
  waiting_service : Bool
  finished : Bool
  round : Int
deriving DecidableEq, Repr

/-- The constant `kTotalRounds = 5` (elgamal_client.cpp line 126). -/
def kTotalRounds : Int := 5

/-- The initial state: `waiting_service_ {false}; finished_ {false};
round_ {0}` (elgamal_client.cpp lines 135-137). -/
def initState : ClientState := ⟨false, false, 0⟩

/-- The externally visible effects of one handler invocation: the
outbound encryption request (`request->public_key`, when a request
was issued) and the published result (`result_msg.data`, when a
message was published on `elgamal_result`). -/
structure Effects where
  request : Option Nat
  result : Option Int
deriving DecidableEq, Repr

/-- No request issued, no result published. -/
def noEffects : Effects := ⟨none, none⟩

/-- Embeds `ElGamalClient::on_params` (elgamal_client.cpp lines
54-124) up to and including the submission of the asynchronous
request; the response callback is `on_response` below.  Inputs: `p`
and `a` are the fields of the parameter message; `n` is the value
drawn from `uniform_int_distribution(1, p - 2)` (the random draw is
embedded as an input); `avail` is the outcome of
`encrypt_client_->wait_for_service(1s)`.  In source order: bail out
if `finished_ || waiting_service_`; if `round_ >= kTotalRounds` set
`finished_` and bail out; reject `p < 3`; if the service is
unavailable bail out with no state change; otherwise set
`waiting_service_ = true` and send the request carrying
`b = mod_pow(a, n, p)`. -/
def on_params (s : ClientState) (p a n : Nat) (avail : Bool) :
    ClientState × Effects :=
  if s.finished || s.waiting_service then (s, noEffects)
  else if s.round ≥ kTotalRounds then ({ s with finished := true }, noEffects)
  else if p < 3 then (s, noEffects)
  else if !avail then (s, noEffects)
  else ({ s with waiting_service := true }, ⟨some (mod_pow a n p), none⟩)

/-- Embeds the service-response callback lambda inside
`ElGamalClient::on_params` (elgamal_client.cpp lines 94-123), with
the captured `p` and `n` as inputs.  `resp = some (y1, y2)` is a
successful `future.get()`; `resp = none` is the `catch` branch (the
future threw).  On success: `exponent = p - 1 - n` (`uint64_t`
subtraction), `x = mod_mul(y2, mod_pow(y1, exponent, p), p)`,
publish `static_cast<int64_t>(x)`, then `++round_;
waiting_service_ = false;` and if `round_ >= kTotalRounds` set
`finished_ = true`.  On failure: `waiting_service_ = false` only. -/
def on_response (s : ClientState) (p n : Nat) (resp : Option (Nat × Nat)) :
    ClientState × Effects :=
  match resp with
  | some (y1, y2) =>
      let exponent := sub64 (sub64 p 1) n
      let x := mod_mul y2 (mod_pow y1 exponent p) p
      let s' : ClientState :=
        { s with round := s.round + 1, waiting_service := false }
      let s'' : ClientState :=
        if s'.round ≥ kTotalRounds then { s' with finished := true } else s'
      (s'', ⟨none, some (toInt64 x)⟩)
  | none => ({ s with waiting_service := false }, noEffects)

/-- One invocation delivered to the node by the executor: either a
parameter message on `elgamal_params` or the completion of the
pending service future. -/
inductive Event where
  | params (p a n : Nat) (avail : Bool)
  | response (p n : Nat) (resp : Option (Nat × Nat))
deriving DecidableEq, Repr

/-- The transition function of the node: dispatch one event. -/
def stepFn (s : ClientState) (e : Event) : ClientState × Effects :=
  match e with
  | Event.params p a n avail => on_params s p a n avail
  | Event.response p n resp => on_response s p n resp

/-- States reachable from the initial state.  A `response` step is
enabled only while `waiting_service = true`: the callback is
registered by `async_send_request`, which runs only after
`waiting_service_ = true` was set, and under the single-threaded
executor nothing clears the flag before the callback itself runs. -/
inductive Reachable : ClientState → Prop where
  | init : Reachable initState
  | params (s : ClientState) (p a n : Nat) (avail : Bool) :
      Reachable s → Reachable (on_params s p a n avail).1
  | response (s : ClientState) (p n : Nat) (resp : Option (Nat × Nat)) :
      Reachable s → s.waiting_service = true →
      Reachable (on_response s p n resp).1

/-! ## Helper lemmas about the modular arithmetic -/

/-- For a modulus in the `uint64_t` range the final cast in `mod_mul`
is the identity, so `mod_mul` is the mathematical `(a * b) % m`. -/
lemma mod_mul_eq (a b m : Nat) (hm : 1 ≤ m) (hmU : m ≤ U64) :
    mod_mul a b m = (a * b) % m := by
  have h : (a * b) % m < U64 := lt_of_lt_of_le (Nat.mod_lt _ hm) hmU
  simp [mod_mul, Nat.mod_eq_of_lt h]

/-- Two naturals with equal images in `ZMod m` have equal remainders
modulo `m`. -/
lemma mod_of_cast_eq (m x y : Nat) (h : (x : ZMod m) = (y : ZMod m)) :
    x % m = y % m := by
  rw [← ZMod.val_natCast x, ← ZMod.val_natCast y, h]

/-- The square-and-multiply loop computes `result * base ^ exp`
modulo `m`, provided the accumulators are already reduced and the
modulus lies in the `uint64_t` range. -/
lemma mod_pow_loop_correct (exp base result m : Nat) (hm : 1 ≤ m)
    (hmU : m ≤ U64) (hb : base < m) (hr : result < m) :
    mod_pow_loop base exp result m = (result * base ^ exp) % m := by
  induction exp using Nat.strong_induction_on generalizing base result with
  | _ exp ih =>
    rcases Nat.eq_zero_or_pos exp with h0 | hpos
    · subst h0
      rw [mod_pow_loop]
      simp [Nat.mod_eq_of_lt hr]
    · rw [mod_pow_loop]
      have hne : ¬ exp = 0 := Nat.pos_iff_ne_zero.mp hpos
      simp only [if_neg hne, mod_mul_eq _ _ _ hm hmU]
      have hbb : base * base % m < m := Nat.mod_lt _ hm
      have hr' : (if exp % 2 = 1 then result * base % m else result) < m := by
        split
        · exact Nat.mod_lt _ hm
        · exact hr
      have ihh := ih (exp / 2) (Nat.div_lt_self hpos (by omega))
        (base * base % m) (if exp % 2 = 1 then result * base % m else result)
        hbb hr'
      rw [ihh]
      rcases Nat.mod_two_eq_zero_or_one exp with he | he
      · rw [if_neg (by omega)]
        apply mod_of_cast_eq
        push_cast [ZMod.natCast_mod]
        rw [← pow_two, ← pow_mul]
        have h2 : 2 * (exp / 2) = exp := by omega
        rw [h2]
      · rw [if_pos he]
        apply mod_of_cast_eq
        push_cast [ZMod.natCast_mod]
        have h2 : exp = 2 * (exp / 2) + 1 := by omega
        conv_rhs => rw [h2]
        rw [pow_add, pow_mul, pow_two, pow_one]
        ring

/-- `mod_pow` computes `base ^ exp % m` for any modulus in the
`uint64_t` range. -/
lemma mod_pow_correct (base exp m : Nat) (hm : 1 ≤ m) (hmU : m ≤ U64) :
    mod_pow base exp m = base ^ exp % m := by
  rw [mod_pow, mod_pow_loop_correct exp (base % m) (1 % m) m hm hmU
    (Nat.mod_lt _ hm) (Nat.mod_lt _ hm)]
  apply mod_of_cast_eq
  push_cast [ZMod.natCast_mod]
  ring

/-- Wrap-around subtraction agrees with truncated subtraction when no
borrow occurs. -/
lemma sub64_eq (x y : Nat) (hy : y ≤ x) (hx : x < U64) : sub64 x y = x - y := by
  unfold sub64
  have hyU : y < U64 := lt_of_le_of_lt hy hx
  rw [Nat.mod_eq_of_lt hyU]
  have h : x + (U64 - y) = U64 + (x - y) := by omega
  rw [h, Nat.add_mod_left, Nat.mod_eq_of_lt (by omega)]

/-! ## Helper lemmas about the handlers -/

/-- With `waiting_service_` set, `on_params` returns at its first
guard: the state is returned unchanged, with no effects. -/
lemma on_params_when_waiting (s : ClientState) (p a n : Nat) (avail : Bool)
    (hw : s.waiting_service = true) :
    on_params s p a n avail = (s, noEffects) := by
  unfold on_params
  rw [hw]
  simp

/-- With `finished_` set, `on_params` returns at its first guard:
the state is returned unchanged, with no effects. -/
lemma on_params_when_finished (s : ClientState) (p a n : Nat) (avail : Bool)
    (hf : s.finished = true) :
    on_params s p a n avail = (s, noEffects) := by
  unfold on_params
  rw [hf]
  simp

/-- In the idle state with rounds remaining and valid parameters, a
failed availability probe makes `on_params` return with no state
change and no effects. -/
lemma on_params_when_unavailable (s : ClientState) (p a n : Nat)
    (hw : s.waiting_service = false) (hf : s.finished = false)
    (hr : s.round < kTotalRounds) (hp : 3 ≤ p) :
    on_params s p a n false = (s, noEffects) := by
  unfold on_params
  rw [hw, hf]
  simp [not_le.mpr hr, not_lt.mpr hp]

/-- The `catch` branch of the response callback only clears
`waiting_service_`. -/
lemma on_response_failure_eq (s : ClientState) (p n : Nat) :
    on_response s p n none = ({ s with waiting_service := false }, noEffects) :=
  rfl

/-- `on_params` never changes `round_`. -/
lemma on_params_round (s : ClientState) (p a n : Nat) (avail : Bool) :
    (on_params s p a n avail).1.round = s.round := by
  unfold on_params
  split_ifs <;> rfl

/-- The success branch of the response callback, written out: clear
`waiting_service_`, increment `round_`, set `finished_` when the
incremented round reaches `kTotalRounds`, and publish the recovered
value. -/
lemma on_response_success_eq (s : ClientState) (p n y1 y2 : Nat) :
    on_response s p n (some (y1, y2)) =
      ((if s.round + 1 ≥ kTotalRounds then ⟨false, true, s.round + 1⟩
        else ⟨false, s.finished, s.round + 1⟩ : ClientState),
       ⟨none, some (toInt64
         (mod_mul y2 (mod_pow y1 (sub64 (sub64 p 1) n) p) p))⟩) := rfl

/-- A successful response increments `round_` by exactly one. -/
lemma on_response_success_round (s : ClientState) (p n y1 y2 : Nat) :
    (on_response s p n (some (y1, y2))).1.round = s.round + 1 := by
  rw [on_response_success_eq]
  split_ifs <;> rfl

/-! ## The reachability invariant -/

/-- The inductive invariant of the round state machine: the round
counter never exceeds `kTotalRounds`; a finished state has consumed
exactly `kTotalRounds` rounds; and a request is in flight only while
rounds remain and the terminal flag is clear. -/
def StateInv (s : ClientState) : Prop :=
  s.round ≤ kTotalRounds ∧
  (s.finished = true → s.round = kTotalRounds) ∧
  (s.waiting_service = true → s.round < kTotalRounds ∧ s.finished = false)

lemma stateInv_init : StateInv initState := by
  refine ⟨by norm_num [initState, kTotalRounds], ?_, ?_⟩ <;>
    simp [initState]

lemma stateInv_params (s : ClientState) (p a n : Nat) (avail : Bool)
    (h : StateInv s) : StateInv (on_params s p a n avail).1 := by
  obtain ⟨h1, h2, h3⟩ := h
  unfold on_params
  split_ifs with hfw hr5 hp hav
  · exact ⟨h1, h2, h3⟩
  all_goals
    simp only [Bool.or_eq_true, not_or, Bool.not_eq_true] at hfw
    obtain ⟨hf, hw⟩ := hfw
  · dsimp only
    exact ⟨h1, fun _ => le_antisymm h1 hr5, fun hwt => by simp [hw] at hwt⟩
  · exact ⟨h1, h2, h3⟩
  · exact ⟨h1, h2, h3⟩
  · dsimp only
    exact ⟨h1, fun hfin => by simp [hf] at hfin,
      fun _ => ⟨lt_of_not_ge hr5, hf⟩⟩

lemma stateInv_response (s : ClientState) (p n : Nat)
    (resp : Option (Nat × Nat)) (h : StateInv s)
    (hw : s.waiting_service = true) : StateInv (on_response s p n resp).1 := by
  obtain ⟨h1, h2, h3⟩ := h
  obtain ⟨hr5, hf⟩ := h3 hw
  cases resp with
  | none =>
    rw [on_response_failure_eq]
    exact ⟨h1, fun hfin => h2 hfin, fun hwt => by simp at hwt⟩
  | some yy =>
    obtain ⟨y1, y2⟩ := yy
    rw [on_response_success_eq]
    split_ifs with hge
    · refine ⟨?_, fun _ => ?_, fun hwt => by simp at hwt⟩
      · show s.round + 1 ≤ kTotalRounds
        omega
      · show s.round + 1 = kTotalRounds
        omega
    · refine ⟨?_, fun hfin => by simp [hf] at hfin, fun hwt => by simp at hwt⟩
      show s.round + 1 ≤ kTotalRounds
      omega

/-- Every reachable state satisfies the inductive invariant. -/
lemma reachable_stateInv (s : ClientState) (h : Reachable s) : StateInv s := by
  induction h with
  | init => exact stateInv_init
  | params s p a n avail _ ih => exact stateInv_params s p a n avail ih
  | response s p n resp _ hw ih => exact stateInv_response s p n resp ih hw

/-- A concrete run of the protocol: from the initial state, five
rounds each consisting of one accepted parameter event (with `p = 3`,
`a = 1`, drawn secret `n = 1`, service available) followed by one
successful response, ending in the terminal state
`waiting_service = false, finished = true, round = 5`. -/
lemma reach_pr (s t u : ClientState) (h : Reachable s)
    (e1 : (on_params s 3 1 1 true).1 = t) (hw : t.waiting_service = true)
    (e2 : (on_response t 3 1 (some (1, 1))).1 = u) : Reachable u := by
  have h1 := Reachable.params s 3 1 1 true h
  rw [e1] at h1
  have h2 := Reachable.response t 3 1 (some (1, 1)) h1 hw
  rw [e2] at h2
  exact h2

/-- The terminal state is reachable: run five full rounds. -/
lemma reachable_terminal : Reachable (⟨false, true, 5⟩ : ClientState) := by
  have g0 : Reachable (⟨false, false, 0⟩ : ClientState) := Reachable.init
  have g1 : Reachable (⟨false, false, 1⟩ : ClientState) :=
    reach_pr _ ⟨true, false, 0⟩ _ g0 (by decide) rfl (by decide)
  have g2 : Reachable (⟨false, false, 2⟩ : ClientState) :=
    reach_pr _ ⟨true, false, 1⟩ _ g1 (by decide) rfl (by decide)
  have g3 : Reachable (⟨false, false, 3⟩ : ClientState) :=
    reach_pr _ ⟨true, false, 2⟩ _ g2 (by decide) rfl (by decide)
  have g4 : Reachable (⟨false, false, 4⟩ : ClientState) :=
    reach_pr _ ⟨true, false, 3⟩ _ g3 (by decide) rfl (by decide)
  exact reach_pr _ ⟨true, false, 4⟩ _ g4 (by decide) rfl (by decide)

/-! ## The claims -/

/-- C1: For every prime `p ≥ 3`, generator `a` of the group mod `p`
(of a generator, only the consequence `¬ p ∣ a` is used), secret
`n ∈ [1, p-2]`, contribution `b = mod_pow a n p` as the client
computes it, message `m ∈ [0, p-1]`, and encryption ephemeral `k`:
if `y1 = a^k mod p` and `y2 = m * b^k mod p`, then the
response-recovery computation `mod_mul(y2, mod_pow(y1, p-1-n, p), p)`
of the service-response callback (with `p - 1 - n` computed in
`uint64_t` arithmetic, i.e. `sub64 (sub64 p 1) n`) equals `m`. -/
theorem elgamal_roundtrip_recovers_message (p a n m k b y1 y2 : Nat)
    (hp : Nat.Prime p) (hp3 : 3 ≤ p) (hpU : p < U64) (ha : ¬ p ∣ a)
    (hn1 : 1 ≤ n) (hn : n ≤ p - 2) (hm : m < p)
    (hb : b = mod_pow a n p) (hy1 : y1 = a ^ k % p)
    (hy2 : y2 = (m * b ^ k) % p) :
    mod_mul y2 (mod_pow y1 (sub64 (sub64 p 1) n) p) p = m := by
  have hp1 : 1 ≤ p := by omega
  have hpU' : p ≤ U64 := le_of_lt hpU
  have hnp1 : n ≤ p - 1 := by omega
  have hexp : sub64 (sub64 p 1) n = p - 1 - n := by
    rw [sub64_eq p 1 (by omega) hpU, sub64_eq (p - 1) n hnp1 (by omega)]
  subst hb hy1 hy2
  rw [hexp, mod_pow_correct a n p hp1 hpU', mod_pow_correct _ _ p hp1 hpU',
    mod_mul_eq _ _ _ hp1 hpU']
  haveI : Fact p.Prime := ⟨hp⟩
  have haz : (a : ZMod p) ≠ 0 := by
    rw [Ne, ZMod.natCast_zmod_eq_zero_iff_dvd]
    exact ha
  have hfermat : (a : ZMod p) ^ (p - 1) = 1 := ZMod.pow_card_sub_one_eq_one haz
  have hcast : (((m * (a ^ n % p) ^ k % p * ((a ^ k % p) ^ (p - 1 - n) % p)) % p
      : Nat) : ZMod p) = ((m : Nat) : ZMod p) := by
    simp only [ZMod.natCast_mod, Nat.cast_mul, Nat.cast_pow]
    have hsum : n * k + k * (p - 1 - n) = (p - 1) * k := by
      rw [Nat.mul_comm n k, ← Nat.mul_add, Nat.add_sub_cancel' hnp1, Nat.mul_comm]
    calc ((m : ZMod p) * ((a : ZMod p) ^ n) ^ k * ((a : ZMod p) ^ k) ^ (p - 1 - n))
        = (m : ZMod p) * (a : ZMod p) ^ (n * k + k * (p - 1 - n)) := by
          rw [← pow_mul, ← pow_mul, pow_add]
          ring
      _ = (m : ZMod p) * ((a : ZMod p) ^ (p - 1)) ^ k := by rw [hsum, pow_mul]
      _ = (m : ZMod p) := by rw [hfermat, one_pow, mul_one]
  have hmods := mod_of_cast_eq p _ _ hcast
  rw [Nat.mod_mod_of_dvd _ (dvd_refl p)] at hmods
  rw [hmods, Nat.mod_eq_of_lt hm]

/-- C1 witness: the spec's concrete scenario `p = 23, a = 5, n = 6,
m = 15, k = 3`, so `b = mod_pow 5 6 23`, `y1 = 5^3 mod 23`,
`y2 = 15 * b^3 mod 23`; recovery returns `15`. -/
theorem elgamal_roundtrip_concrete :
    mod_mul (15 * (mod_pow 5 6 23) ^ 3 % 23)
      (mod_pow (5 ^ 3 % 23) (sub64 (sub64 23 1) 6) 23) 23 = 15 :=
  elgamal_roundtrip_recovers_message 23 5 6 15 3 (mod_pow 5 6 23)
    (5 ^ 3 % 23) (15 * (mod_pow 5 6 23) ^ 3 % 23) (by norm_num) (by omega)
    (by norm_num [U64]) (by omega) (by omega) (by omega) (by omega)
    rfl rfl rfl

/-- C2: for every `base`, every `exp ≥ 0` and every modulus `m` with
`1 ≤ m` in the `uint64_t` range, `mod_pow base exp m` returns
`base ^ exp % m`; in particular `mod_pow base 0 m = 1 % m` (which is
`0` when `m = 1`).  `mod_pow` is a plain function, hence
deterministic and total over this domain. -/
theorem mod_pow_computes_pow_mod (base exp m : Nat) (hm : 1 ≤ m)
    (hmU : m < U64) :
    mod_pow base exp m = base ^ exp % m ∧ mod_pow base 0 m = 1 % m := by
  refine ⟨mod_pow_correct base exp m hm (le_of_lt hmU), ?_⟩
  rw [mod_pow_correct base 0 m hm (le_of_lt hmU), pow_zero]

/-- C2 witness: at `base = 3, exp = 5, m = 1` both parts evaluate to
`0`, exercising the `1 mod m = 0` corner for `m = 1`. -/
theorem mod_pow_computes_pow_mod_witness :
    mod_pow 3 5 1 = 0 ∧ mod_pow 3 0 1 = 0 := by
  have h := mod_pow_computes_pow_mod 3 5 1 (by omega) (by norm_num [U64])
  exact ⟨h.1.trans (by decide), h.2.trans (by decide)⟩

/-- C3: for all `uint64_t` values `x, y` and every modulus `m` with
`1 ≤ m` in the `uint64_t` range, `mod_mul x y m` returns exactly
`(x * y) % m`; the widened 128-bit intermediate product never wraps
(`x * y < 2^128`) and the reduced result fits in 64 bits. -/
theorem mod_mul_no_overflow (x y m : Nat) (hx : x < U64) (hy : y < U64)
    (hm : 1 ≤ m) (hmU : m < U64) :
    mod_mul x y m = (x * y) % m ∧ x * y < U128 ∧ mod_mul x y m < U64 := by
  have h1 := mod_mul_eq x y m hm (le_of_lt hmU)
  refine ⟨h1, ?_, ?_⟩
  · calc x * y < U64 * U64 := Nat.mul_lt_mul'' hx hy
      _ = U128 := by norm_num [U64, U128]
  · rw [h1]
    exact lt_trans (Nat.mod_lt _ hm) hmU

/-- C3 witness: the largest `uint64_t` operands, `x = y = 2^64 - 1`,
with modulus `97`. -/
theorem mod_mul_no_overflow_witness :
    mod_mul (2 ^ 64 - 1) (2 ^ 64 - 1) 97 = (2 ^ 64 - 1) * (2 ^ 64 - 1) % 97 ∧
    (2 ^ 64 - 1) * (2 ^ 64 - 1) < U128 ∧
    mod_mul (2 ^ 64 - 1) (2 ^ 64 - 1) 97 < U64 :=
  mod_mul_no_overflow (2 ^ 64 - 1) (2 ^ 64 - 1) 97 (by norm_num [U64])
    (by norm_num [U64]) (by omega) (by norm_num [U64])

/-- C4: for every state with `waiting_service = true`, processing any
parameter event issues no outbound encryption request and mutates no
round state: `round`, `waiting_service` and `finished` are all
unchanged. -/
theorem waiting_params_event_noop (s : ClientState) (p a n : Nat)
    (avail : Bool) (hw : s.waiting_service = true) :
    (on_params s p a n avail).2.request = none ∧
    (on_params s p a n avail).1.round = s.round ∧
    (on_params s p a n avail).1.waiting_service = s.waiting_service ∧
    (on_params s p a n avail).1.finished = s.finished := by
  rw [on_params_when_waiting s p a n avail hw]
  exact ⟨rfl, rfl, rfl, rfl⟩

/-- C4 witness: a waiting mid-run state with parameters from the
spec's concrete scenario. -/
theorem waiting_params_event_noop_witness :
    (on_params ⟨true, false, 2⟩ 23 5 6 true).2.request = none ∧
    (on_params ⟨true, false, 2⟩ 23 5 6 true).1.round = 2 ∧
    (on_params ⟨true, false, 2⟩ 23 5 6 true).1.waiting_service = true ∧
    (on_params ⟨true, false, 2⟩ 23 5 6 true).1.finished = false :=
  waiting_params_event_noop ⟨true, false, 2⟩ 23 5 6 true rfl

/-- C5: for every state with `finished = true`, processing any
subsequent parameter event leaves `round`, `waiting_service` and
`finished` unchanged and emits no result to the result sink. -/
theorem finished_params_event_noop (s : ClientState) (p a n : Nat)
    (avail : Bool) (hf : s.finished = true) :
    (on_params s p a n avail).1.round = s.round ∧
    (on_params s p a n avail).1.waiting_service = s.waiting_service ∧
    (on_params s p a n avail).1.finished = s.finished ∧
    (on_params s p a n avail).2.result = none := by
  rw [on_params_when_finished s p a n avail hf]
  exact ⟨rfl, rfl, rfl, rfl⟩

/-- C5 witness: the terminal state, hit with one more parameter
event. -/
theorem finished_params_event_noop_witness :
    (on_params ⟨false, true, 5⟩ 23 5 6 true).1.round = 5 ∧
    (on_params ⟨false, true, 5⟩ 23 5 6 true).1.waiting_service = false ∧
    (on_params ⟨false, true, 5⟩ 23 5 6 true).1.finished = true ∧
    (on_params ⟨false, true, 5⟩ 23 5 6 true).2.result = none :=
  finished_params_event_noop ⟨false, true, 5⟩ 23 5 6 true rfl

/-- C6: across every step (parameter event, successful response,
failed response), `round` is monotonically non-decreasing, and it is
incremented — by exactly 1 — precisely by a successful response; no
other step changes `round`. -/
theorem round_changes_only_on_success (s : ClientState) (e : Event) :
    s.round ≤ (stepFn s e).1.round ∧
    (stepFn s e).1.round =
      (match e with
        | Event.response _ _ (some _) => s.round + 1
        | _ => s.round) := by
  cases e with
  | params p a n avail =>
    simp only [stepFn]
    rw [on_params_round]
    exact ⟨le_refl _, rfl⟩
  | response p n resp =>
    cases resp with
    | none =>
      simp only [stepFn]
      rw [on_response_failure_eq]
      exact ⟨le_refl _, rfl⟩
    | some yy =>
      obtain ⟨y1, y2⟩ := yy
      simp only [stepFn]
      rw [on_response_success_round]
      exact ⟨by omega, rfl⟩

/-- C7: in every reachable state, `finished = true` implies
`round = kTotalRounds` (5); moreover no further round can run after
that: no response is pending (`waiting_service = false`) and every
further parameter event returns the state unchanged with no
effects. -/
theorem finished_implies_all_rounds (s : ClientState) (h : Reachable s)
    (hf : s.finished = true) :
    s.round = kTotalRounds ∧ s.waiting_service = false ∧
    ∀ p a n avail, on_params s p a n avail = (s, noEffects) := by
  obtain ⟨h1, h2, h3⟩ := reachable_stateInv s h
  refine ⟨h2 hf, ?_, fun p a n avail => on_params_when_finished s p a n avail hf⟩
  rcases Bool.eq_false_or_eq_true s.waiting_service with hw | hw
  · exact absurd (h3 hw).2 (by simp [hf])
  · exact hw

/-- C7 witness: the reachable terminal state after five completed
rounds. -/
theorem finished_implies_all_rounds_witness :
    (⟨false, true, 5⟩ : ClientState).round = kTotalRounds ∧
    (⟨false, true, 5⟩ : ClientState).waiting_service = false ∧
    ∀ p a n avail,
      on_params ⟨false, true, 5⟩ p a n avail = (⟨false, true, 5⟩, noEffects) :=
  finished_implies_all_rounds ⟨false, true, 5⟩ reachable_terminal rfl

/-- C8: for every state in `WaitingForResponse`
(`waiting_service = true`), a failed/errored response clears
`waiting_service` (back to idle) and does not increment `round`,
does not change `finished`, and emits no result. -/
theorem failed_response_clears_waiting (s : ClientState) (p n : Nat)
    (hw : s.waiting_service = true) :
    (on_response s p n none).1.waiting_service = false ∧
    (on_response s p n none).1.round = s.round ∧
    (on_response s p n none).1.finished = s.finished ∧
    (on_response s p n none).2.result = none := by
  rw [on_response_failure_eq]
  exact ⟨rfl, rfl, rfl, rfl⟩

/-- C8 witness: a waiting mid-run state whose pending response
errors. -/
theorem failed_response_clears_waiting_witness :
    (on_response ⟨true, false, 1⟩ 23 6 none).1.waiting_service = false ∧
    (on_response ⟨true, false, 1⟩ 23 6 none).1.round = 1 ∧
    (on_response ⟨true, false, 1⟩ 23 6 none).1.finished = false ∧
    (on_response ⟨true, false, 1⟩ 23 6 none).2.result = none :=
  failed_response_clears_waiting ⟨true, false, 1⟩ 23 6 rfl

/-- C9: for every parameter event processed in the idle state
(`waiting_service = false`, `finished = false`, rounds remaining)
with valid parameters (`p ≥ 3`) where the availability probe fails,
the state is returned unchanged, no request is issued and no result
is emitted. -/
theorem probe_unavailable_noop (s : ClientState) (p a n : Nat)
    (hw : s.waiting_service = false) (hf : s.finished = false)
    (hr : s.round < kTotalRounds) (hp : 3 ≤ p) :
    (on_params s p a n false).1 = s ∧
    (on_params s p a n false).2.request = none ∧
    (on_params s p a n false).2.result = none := by
  rw [on_params_when_unavailable s p a n hw hf hr hp]
  exact ⟨rfl, rfl, rfl⟩

/-- C9 witness: the initial state with the spec's concrete
parameters and an unavailable service. -/
theorem probe_unavailable_noop_witness :
    (on_params initState 23 5 6 false).1 = initState ∧
    (on_params initState 23 5 6 false).2.request = none ∧
    (on_params initState 23 5 6 false).2.result = none :=
  probe_unavailable_noop initState 23 5 6 rfl rfl (by norm_num [initState, kTotalRounds])
    (by omega)

/-- C10: in every reachable state, `waiting_service` and `finished`
are never simultaneously true: whenever `waiting_service = true`,
`finished = false`, and whenever `finished = true`,
`waiting_service = false`. -/
theorem waiting_finished_mutually_exclusive (s : ClientState)
    (h : Reachable s) :
    (s.waiting_service = true → s.finished = false) ∧
    (s.finished = true → s.waiting_service = false) := by
  obtain ⟨h1, h2, h3⟩ := reachable_stateInv s h
  refine ⟨fun hw => (h3 hw).2, fun hf => ?_⟩
  rcases Bool.eq_false_or_eq_true s.waiting_service with hw | hw
  · exact absurd (h3 hw).2 (by simp [hf])
  · exact hw

/-- C10 witness: the invariant instantiated at the initial state. -/
theorem waiting_finished_mutually_exclusive_witness :
    (initState.waiting_service = true → initState.finished = false) ∧
    (initState.finished = true → initState.waiting_service = false) :=
  waiting_finished_mutually_exclusive initState Reachable.init
